import Mathlib

/-!
Shallow embedding of the Regional Proxy & Rebalancing Engine of
`src/rmnd_lca/cement.py` (class `Cement`), together with proofs about the
testable properties of its specification.

Modelling conventions:
* wurst datasets (Python dicts) become the structures `Exchange` and
  `Activity`; the optional `product` key of an exchange is an
  `Option String` (Python `exc.get("product")` yields `None` when absent).
* floating point amounts are modelled by exact rationals;
* fallible code paths (Python exceptions: `ws.MultipleResults`,
  `ZeroDivisionError`, `IndexError`, `KeyError`, `ValueError` from
  `np.nanargmax` on an all-nan array, and a loop that may not terminate
  within a given amount of fuel) are modelled with `Option`, `none` meaning
  the Python call raises (or, for the fueled loop, has not yet terminated);
* the region crosswalk (`Geomap`, whose module is not part of the sources
  here) is passed as parameters: `geo : String → String` for
  `ecoinvent_to_remind_location` and `r2e : String → List String` for
  `remind_to_ecoinvent_location`; the fresh uuid codes of
  `fetch_proxies` are supplied by a parameter `fresh : String → String`.
* numpy nan values inside the rebalancing arrays are `Option ℚ` with
  `none` playing the role of nan (`np.nan_to_num` is `Option.getD 0`).
-/

/-- A wurst exchange (graph edge).  `type` is one of "technosphere",
"biosphere", "production"; `prodVolume` models the "production volume"
key and `loc` the uncertainty location parameter. -/
structure Exchange where
  name : String := ""
  product : Option String := none
  location : String := ""
  unit : String := ""
  type : String := ""
  amount : ℚ := 0
  prodVolume : ℚ := 0
  uncertaintyType : Nat := 0
  loc : ℚ := 0
deriving DecidableEq, Repr

/-- A wurst dataset (activity / production process). -/
structure Activity where
  name : String := ""
  refProduct : String := ""
  location : String := ""
  unit : String := ""
  code : String := ""
  exchanges : List Exchange := []
deriving DecidableEq, Repr

/-- The identity triple (name, reference product, location) of an activity. -/
def actKey (a : Activity) : String × String × String :=
  (a.name, a.refProduct, a.location)

/-- The filter `ws.equals("name", name), ws.equals("reference product", ref_prod)`
used throughout `cement.py`. -/
def matchNR (name rp : String) (a : Activity) : Bool :=
  a.name == name && a.refProduct == rp

/-- Result of `wurst.searching.get_one`: no match raises `NoResults`
(caught in `fetch_proxies`), several matches raise `MultipleResults`
(not caught). -/
inductive GetOne where
  | noRes : GetOne
  | one : Activity → GetOne
  | multi : GetOne
deriving DecidableEq

/-- `ws.get_one(db, equals name, equals reference product, equals location)`. -/
def get_one (db : List Activity) (name rp loc0 : String) : GetOne :=
  match db.filter (fun a => matchNR name rp a && a.location == loc0) with
  | [] => .noRes
  | [a] => .one a
  | _ :: _ :: _ => .multi

/-- The dict comprehension building `d_map` in `fetch_proxies` maps each
REMIND region to the ecoinvent location of the *last* matching activity
whose region it is (later dict entries overwrite earlier ones);
`d_map.get(r, "RoW")` then falls back to the "RoW" location. -/
def d_map_lookup (db : List Activity) (name rp : String)
    (geo : String → String) (r : String) : String :=
  match ((db.filter (fun a => matchNR name rp a)).reverse).find?
      (fun a => geo a.location == r) with
  | some a => a.location
  | none => "RoW"

/-- The per-region deep copy made by `fetch_proxies`: fresh code, location
set to the REMIND region, and every production exchange relocated there. -/
def cloneForRegion (a : Activity) (r code0 : String) : Activity :=
  { a with
    location := r
    code := code0
    exchanges := a.exchanges.map
      (fun e => if e.type == "production" then { e with location := r } else e) }

/-- The `for d in d_remind_to_eco` loop of `fetch_proxies`: for each REMIND
region, look one matching dataset up at the source location, skip the
region on `NoResults`, abort on `MultipleResults`. -/
def fetchLoop (geo : String → String) (fresh : String → String)
    (db : List Activity) (name rp : String) :
    List String → Option (List (String × Activity))
  | [] => some []
  | r :: rs =>
    match get_one db name rp (d_map_lookup db name rp geo r) with
    | .one a =>
      (fetchLoop geo fresh db name rp rs).map
        (fun rest => (r, cloneForRegion a r (fresh r)) :: rest)
    | .noRes => fetchLoop geo fresh db name rp rs
    | .multi => none

/-- `Cement.fetch_proxies`: returns the region → clone mapping together
with the new database (the old one minus every activity matching
(name, reference product)). -/
def fetch_proxies (geo : String → String) (fresh : String → String)
    (db : List Activity) (name rp : String) (regions : List String) :
    Option (List (String × Activity) × List Activity) :=
  (fetchLoop geo fresh db name rp regions).map
    (fun pairs => (pairs, db.filter (fun a => !(matchNR name rp a))))

-- helper lemmas on filters and get_one

theorem filter_and_eq {α : Type} (p q : α → Bool) (l : List α) :
    l.filter (fun a => p a && q a) = (l.filter p).filter q := by
  induction l with
  | nil => rfl
  | cons x xs ih =>
    by_cases hp : p x
    · by_cases hq : q x <;> simp [List.filter_cons, hp, hq, ih]
    · simp [List.filter_cons, hp, ih]

theorem get_one_eq_one {db : List Activity} {name rp loc0 : String} {a : Activity}
    (h : get_one db name rp loc0 = .one a) :
    a.name = name ∧ a.refProduct = rp ∧ a.location = loc0 := by
  unfold get_one at h
  split at h
  · exact absurd h (by simp)
  · rename_i b heq
    have hb : b ∈ db.filter (fun x => matchNR name rp x && x.location == loc0) := by
      rw [heq]; exact List.mem_singleton_self b
    have hpred := List.of_mem_filter hb
    have hba : b = a := by cases h; rfl
    subst hba
    simp only [matchNR, Bool.and_assoc, Bool.and_eq_true, beq_iff_eq] at hpred
    exact hpred
  · exact absurd h (by simp)

/-- Claim C1: with exactly one generic "clinker production" activity located
at the rest-of-world fallback location "RoW", whose enclosing region is R1,
and target regions {R1, R2} where R2 has no mapped activity,
`fetch_proxies("clinker production", "clinker")` yields exactly two clones
(R1 sourced from that activity, R2 sourced from it via the RoW fallback)
and the new database retains no (name, reference product) match. -/
theorem fetch_proxies_two_clone_c1
    (db : List Activity) (a : Activity) (geo fresh : String → String) (r1 r2 : String)
    (hfa : db.filter (fun x => matchNR "clinker production" "clinker" x) = [a])
    (hloc : a.location = "RoW")
    (hgeo : geo "RoW" = r1)
    (hne : r1 ≠ r2) :
    fetch_proxies geo fresh db "clinker production" "clinker" [r1, r2] =
      some ([(r1, cloneForRegion a r1 (fresh r1)), (r2, cloneForRegion a r2 (fresh r2))],
            db.filter (fun x => !(matchNR "clinker production" "clinker" x))) ∧
    ∀ x ∈ db.filter (fun x => !(matchNR "clinker production" "clinker" x)),
      ¬(x.name = "clinker production" ∧ x.refProduct = "clinker") := by
  have hmap1 : d_map_lookup db "clinker production" "clinker" geo r1 = "RoW" := by
    unfold d_map_lookup
    rw [hfa]
    simp [List.find?, hloc, hgeo]
  have hbeq2 : (geo "RoW" == r2) = false := by
    rw [hgeo]; exact beq_eq_false_iff_ne.mpr hne
  have hmap2 : d_map_lookup db "clinker production" "clinker" geo r2 = "RoW" := by
    unfold d_map_lookup
    rw [hfa]
    simp [List.find?, hbeq2, hloc]
  have hone : get_one db "clinker production" "clinker" "RoW" = .one a := by
    unfold get_one
    rw [filter_and_eq, hfa]
    simp [List.filter, hloc]
  constructor
  · unfold fetch_proxies
    simp only [fetchLoop, hmap1, hmap2, hone, Option.map]
  · intro x hx
    have hpred := List.of_mem_filter hx
    simp only [matchNR, Bool.not_eq_true', Bool.and_eq_false_iff, beq_eq_false_iff_ne] at hpred
    rintro ⟨h1, h2⟩
    cases hpred with
    | inl h => exact h h1
    | inr h => exact h h2

def exClinkerProd : Exchange :=
  { name := "clinker production", product := some "clinker", location := "RoW",
    unit := "kilogram", type := "production", amount := 1, prodVolume := 1000 }

def actClinkerRoW : Activity :=
  { name := "clinker production", refProduct := "clinker", location := "RoW",
    unit := "kilogram", code := "orig", exchanges := [exClinkerProd] }

def actSteel : Activity :=
  { name := "steel production", refProduct := "steel", location := "DE",
    unit := "kilogram", code := "steel0", exchanges := [] }

def geoC1 : String → String := fun _ => "EUR"

def freshC1 : String → String := fun r => r ++ "-new"

/-- Witness for C1 at a concrete two-activity database. -/
theorem fetch_proxies_two_clone_c1_witness :
    ([actClinkerRoW, actSteel].filter
        (fun x => matchNR "clinker production" "clinker" x) = [actClinkerRoW]) ∧
    actClinkerRoW.location = "RoW" ∧ geoC1 "RoW" = "EUR" ∧ ("EUR" : String) ≠ "CHA" ∧
    (fetch_proxies geoC1 freshC1 [actClinkerRoW, actSteel]
        "clinker production" "clinker" ["EUR", "CHA"] =
      some ([("EUR", cloneForRegion actClinkerRoW "EUR" (freshC1 "EUR")),
             ("CHA", cloneForRegion actClinkerRoW "CHA" (freshC1 "CHA"))],
            [actClinkerRoW, actSteel].filter
              (fun x => !(matchNR "clinker production" "clinker" x))) ∧
     ∀ x ∈ [actClinkerRoW, actSteel].filter
        (fun x => !(matchNR "clinker production" "clinker" x)),
       ¬(x.name = "clinker production" ∧ x.refProduct = "clinker")) :=
  ⟨by decide, by decide, by decide, by decide,
   fetch_proxies_two_clone_c1 [actClinkerRoW, actSteel] actClinkerRoW geoC1 freshC1
     "EUR" "CHA" (by decide) (by decide) (by decide) (by decide)⟩

theorem filter_mem_key {db : List Activity} {name rp loc0 : String} {x : Activity}
    (hx : x ∈ db.filter (fun a => matchNR name rp a && a.location == loc0)) :
    actKey x = (name, rp, loc0) := by
  have hpred := List.of_mem_filter hx
  simp only [matchNR, Bool.and_assoc, Bool.and_eq_true, beq_iff_eq] at hpred
  simp [actKey, hpred.1, hpred.2.1, hpred.2.2]

/-- Under triple uniqueness of the database, `wurst.get_one` never raises
`MultipleResults` inside `fetch_proxies`. -/
theorem get_one_not_multi {db : List Activity} {name rp loc0 : String}
    (hdb : (db.map actKey).Nodup) :
    get_one db name rp loc0 ≠ .multi := by
  unfold get_one
  split
  · simp
  · simp
  · rename_i x y t heq
    exfalso
    have hx : x ∈ db.filter (fun a => matchNR name rp a && a.location == loc0) := by
      rw [heq]; exact List.mem_cons_self x _
    have hy : y ∈ db.filter (fun a => matchNR name rp a && a.location == loc0) := by
      rw [heq]; exact List.mem_cons_of_mem x (List.mem_cons_self y _)
    have hnd : (((db.filter
        (fun a => matchNR name rp a && a.location == loc0)).map actKey)).Nodup :=
      ((List.filter_sublist db).map actKey).nodup hdb
    rw [heq] at hnd
    simp only [List.map_cons, List.nodup_cons, List.mem_cons] at hnd
    exact hnd.1 (Or.inl ((filter_mem_key hx).trans (filter_mem_key hy).symm))

/-- The proxy-building loop of `fetch_proxies` always succeeds on a
triple-unique database; the clone locations form a sublist of the region
list, and every clone carries the requested name and reference product. -/
theorem fetchLoop_spec (geo fresh : String → String) (db : List Activity)
    (name rp : String) (hdb : (db.map actKey).Nodup) :
    ∀ rs : List String, ∃ pairs, fetchLoop geo fresh db name rp rs = some pairs ∧
      (pairs.map (fun p => p.2.location)).Sublist rs ∧
      ∀ p ∈ pairs, p.2.name = name ∧ p.2.refProduct = rp := by
  intro rs
  induction rs with
  | nil => exact ⟨[], rfl, by simp, by simp⟩
  | cons r rs ih =>
    obtain ⟨pairs, hp, hsub, hprops⟩ := ih
    cases hg : get_one db name rp (d_map_lookup db name rp geo r) with
    | one a =>
      refine ⟨(r, cloneForRegion a r (fresh r)) :: pairs, ?_, ?_, ?_⟩
      · simp only [fetchLoop, hg, hp, Option.map]
      · exact List.Sublist.cons₂ r hsub
      · intro p hpm
        rcases List.mem_cons.mp hpm with h | h
        · subst h
          obtain ⟨h1, h2, _⟩ := get_one_eq_one hg
          exact ⟨h1, h2⟩
        · exact hprops p h
    | noRes =>
      refine ⟨pairs, ?_, List.Sublist.cons r hsub, hprops⟩
      simp only [fetchLoop, hg, hp]
    | multi => exact absurd hg (get_one_not_multi hdb)

/-- Claim C2: starting from a database in which no two activities share
(name, reference product, location) and a duplicate-free target-region
list, `fetch_proxies` succeeds, and the new database together with the
returned clones is again triple-unique: the clones carry pairwise
distinct region locations and every original (name, reference product)
match has been removed. -/
theorem fetch_proxies_unique_c2
    (db : List Activity) (geo fresh : String → String) (name rp : String)
    (regions : List String)
    (hdb : (db.map actKey).Nodup) (hrg : regions.Nodup) :
    ∃ pairs,
      fetch_proxies geo fresh db name rp regions =
        some (pairs, db.filter (fun x => !(matchNR name rp x))) ∧
      ((db.filter (fun x => !(matchNR name rp x)) ++ pairs.map Prod.snd).map actKey).Nodup ∧
      (pairs.map (fun p => p.2.location)).Nodup ∧
      ∀ x ∈ db.filter (fun x => !(matchNR name rp x)), (x.name, x.refProduct) ≠ (name, rp) := by
  obtain ⟨pairs, hp, hsub, hprops⟩ := fetchLoop_spec geo fresh db name rp hdb regions
  have hkeys : (pairs.map Prod.snd).map actKey =
      (pairs.map (fun p => p.2.location)).map (fun l => (name, rp, l)) := by
    rw [List.map_map, List.map_map]
    apply List.map_congr_left
    intro p hpm
    obtain ⟨h1, h2⟩ := hprops p hpm
    simp [actKey, Function.comp, h1, h2]
  have hnewdb : ∀ x ∈ db.filter (fun x => !(matchNR name rp x)),
      (x.name, x.refProduct) ≠ (name, rp) := by
    intro x hx
    have hpred := List.of_mem_filter hx
    simp only [Bool.not_eq_true', matchNR, Bool.and_eq_false_iff,
      beq_eq_false_iff_ne] at hpred
    intro hcontra
    cases hpred with
    | inl h => exact h (congrArg Prod.fst hcontra)
    | inr h => exact h (congrArg Prod.snd hcontra)
  refine ⟨pairs, ?_, ?_, hsub.nodup hrg, hnewdb⟩
  · unfold fetch_proxies; rw [hp]; rfl
  · rw [List.map_append, List.nodup_append]
    refine ⟨((List.filter_sublist db).map actKey).nodup hdb, ?_, ?_⟩
    · rw [hkeys]
      exact (hsub.nodup hrg).map (fun a b h => by simpa using h)
    · intro k hk1 hk2
      rw [hkeys] at hk2
      obtain ⟨l, _, hl⟩ := List.mem_map.mp hk2
      obtain ⟨x, hxmem, hxkey⟩ := List.mem_map.mp hk1
      apply hnewdb x hxmem
      have : actKey x = (name, rp, l) := hxkey.trans hl.symm
      simp only [actKey, Prod.mk.injEq] at this
      simp [this.1, this.2.1]

/-- Witness for C2 at a concrete two-activity database. -/
theorem fetch_proxies_unique_c2_witness :
    (([actClinkerRoW, actSteel].map actKey).Nodup ∧ (["EUR", "CHA"] : List String).Nodup) ∧
    (∃ pairs,
      fetch_proxies geoC1 freshC1 [actClinkerRoW, actSteel] "clinker production" "clinker"
          ["EUR", "CHA"] =
        some (pairs, [actClinkerRoW, actSteel].filter
          (fun x => !(matchNR "clinker production" "clinker" x))) ∧
      (([actClinkerRoW, actSteel].filter (fun x => !(matchNR "clinker production" "clinker" x))
          ++ pairs.map Prod.snd).map actKey).Nodup ∧
      (pairs.map (fun p => p.2.location)).Nodup ∧
      ∀ x ∈ [actClinkerRoW, actSteel].filter
          (fun x => !(matchNR "clinker production" "clinker" x)),
        (x.name, x.refProduct) ≠ ("clinker production", "clinker")) :=
  ⟨⟨by decide, by decide⟩,
   fetch_proxies_unique_c2 [actClinkerRoW, actSteel] geoC1 freshC1
     "clinker production" "clinker" ["EUR", "CHA"] (by decide) (by decide)⟩

/-- Supplier key used by `get_shares_from_production_volume`:
(name, location, reference product, unit). -/
abbrev SupKey := String × String × String × String

def supKey (a : Activity) : SupKey := (a.name, a.location, a.refProduct, a.unit)

/-- One (key, production volume) record per production exchange of each
dataset, in iteration order. -/
def prodVolEntries (ds : List Activity) : List (SupKey × ℚ) :=
  ds.flatMap (fun a =>
    (a.exchanges.filter (fun e => e.type == "production")).map
      (fun e => (supKey a, e.prodVolume)))

/-- Python dict assignment `dict_act[key] = value`: overwrite if the key is
present (keeping first-insertion order), append otherwise. -/
def dictInsert (l : List (SupKey × ℚ)) (k : SupKey) (v : ℚ) : List (SupKey × ℚ) :=
  if l.any (fun p => decide (p.1 = k)) then
    l.map (fun p => if p.1 = k then (k, v) else p)
  else l ++ [(k, v)]

def toDict (es : List (SupKey × ℚ)) : List (SupKey × ℚ) :=
  es.foldl (fun d p => dictInsert d p.1 p.2) []

/-- `Cement.get_shares_from_production_volume`.  The accumulated dict maps
each key to the *last* volume recorded for it while the denominator sums
*all* volumes; a nonempty entry list with total volume 0 raises
`ZeroDivisionError` (modelled as `none`). -/
def get_shares_from_production_volume (ds : List Activity) :
    Option (List (SupKey × ℚ)) :=
  if (prodVolEntries ds).isEmpty then some []
  else if ((prodVolEntries ds).map (fun p => p.2)).sum = 0 then none
  else some ((toDict (prodVolEntries ds)).map
    (fun p => (p.1, p.2 / ((prodVolEntries ds).map (fun q => q.2)).sum)))

theorem dictInsert_new {l : List (SupKey × ℚ)} {k : SupKey} {v : ℚ}
    (h : k ∉ l.map Prod.fst) : dictInsert l k v = l ++ [(k, v)] := by
  have hany : l.any (fun p => decide (p.1 = k)) = false := by
    rw [List.any_eq_false]
    intro p hp
    simp only [decide_eq_true_eq]
    intro hk
    exact h (List.mem_map.mpr ⟨p, hp, hk⟩)
  simp [dictInsert, hany]

theorem toDict_aux (es : List (SupKey × ℚ)) :
    ∀ acc : List (SupKey × ℚ),
      ((acc.map Prod.fst) ++ es.map Prod.fst).Nodup →
      es.foldl (fun d p => dictInsert d p.1 p.2) acc = acc ++ es := by
  induction es with
  | nil => intro acc _; simp
  | cons p es ih =>
    intro acc hnd
    have hknotin : p.1 ∉ acc.map Prod.fst := by
      rw [List.map_cons, List.nodup_append] at hnd
      intro hin
      exact (hnd.2.2 hin) (List.mem_cons_self _ _)
    rw [List.foldl_cons, dictInsert_new hknotin]
    have hnd' : (((acc ++ [(p.1, p.2)]).map Prod.fst) ++ es.map Prod.fst).Nodup := by
      simpa [List.map_append, List.append_assoc] using hnd
    rw [ih (acc ++ [(p.1, p.2)]) hnd']
    simp [List.append_assoc]

theorem toDict_of_nodup {es : List (SupKey × ℚ)} (h : (es.map Prod.fst).Nodup) :
    toDict es = es := by
  have := toDict_aux es [] (by simpa using h)
  simpa [toDict] using this

theorem sum_map_div (l : List ℚ) (t : ℚ) :
    (l.map (fun x => x / t)).sum = l.sum / t := by
  induction l with
  | nil => simp
  | cons x xs ih => simp [ih, add_div]

/-- Claim C8 (amended): the shares returned for a selected supplier list sum
to 1 provided the recorded production-volume keys are pairwise distinct and
the total recorded volume is nonzero; with no recorded production volume the
empty mapping is returned.  (As stated the claim is false: a nonempty match
with zero total volume crashes, see the counterexample.) -/
theorem get_shares_sum_one_c8 (ds : List Activity)
    (hnd : ((prodVolEntries ds).map Prod.fst).Nodup)
    (hne : prodVolEntries ds ≠ [])
    (htot : ((prodVolEntries ds).map (fun p => p.2)).sum ≠ 0) :
    (∀ ds2 : List Activity, prodVolEntries ds2 = [] →
        get_shares_from_production_volume ds2 = some []) ∧
    ∃ l, get_shares_from_production_volume ds = some l ∧
      (l.map (fun p => p.2)).sum = 1 := by
  constructor
  · intro ds2 h2
    unfold get_shares_from_production_volume
    simp [h2]
  · refine ⟨(toDict (prodVolEntries ds)).map
      (fun p => (p.1, p.2 / ((prodVolEntries ds).map (fun q => q.2)).sum)), ?_, ?_⟩
    · unfold get_shares_from_production_volume
      rw [if_neg (by simpa [List.isEmpty_iff] using hne), if_neg htot]
    · rw [toDict_of_nodup hnd]
      have h1 : ((prodVolEntries ds).map
            (fun p => (p.1, p.2 / ((prodVolEntries ds).map (fun q => q.2)).sum))).map
            (fun p => p.2)
          = ((prodVolEntries ds).map (fun p => p.2)).map
            (fun x => x / ((prodVolEntries ds).map (fun q => q.2)).sum) := by
        simp [List.map_map]
      rw [h1, sum_map_div, div_self htot]

def prodExcOf (v : ℚ) : Exchange :=
  { name := "supply", product := some "waste plastic, mixture", location := "LOC",
    unit := "kilogram", type := "production", amount := 1, prodVolume := v }

def actSupplier : Activity :=
  { name := "tech1", refProduct := "waste plastic, mixture", location := "LOC",
    unit := "kilogram", code := "sup1", exchanges := [prodExcOf 2] }

def actZeroVol : Activity :=
  { name := "techZ", refProduct := "waste plastic, mixture", location := "LOC",
    unit := "kilogram", code := "supZ", exchanges := [prodExcOf 0] }

def actCancelVol : Activity :=
  { name := "techC", refProduct := "waste plastic, mixture", location := "LOC",
    unit := "kilogram", code := "supC", exchanges := [prodExcOf 3, prodExcOf (-3)] }

/-- Counterexample to claim C8 as stated: a single matching supplier whose
only production volume is 0 makes the normalization divide by zero, so no
share mapping (let alone one summing to 1) is returned. -/
theorem get_shares_crash_c8_counterexample :
    get_shares_from_production_volume [actZeroVol] = none ∧
    ([actZeroVol] : List Activity) ≠ [] := by
  refine ⟨?_, by decide⟩
  simp [get_shares_from_production_volume, prodVolEntries, actZeroVol, prodExcOf, supKey]

/-- Witness for the amended claim C8. -/
theorem get_shares_sum_one_c8_witness :
    (((prodVolEntries [actSupplier]).map Prod.fst).Nodup ∧
     prodVolEntries [actSupplier] ≠ [] ∧
     ((prodVolEntries [actSupplier]).map (fun p => p.2)).sum ≠ 0) ∧
    ((∀ ds2 : List Activity, prodVolEntries ds2 = [] →
        get_shares_from_production_volume ds2 = some []) ∧
     ∃ l, get_shares_from_production_volume [actSupplier] = some l ∧
       (l.map (fun p => p.2)).sum = 1) :=
  ⟨⟨by decide, by decide,
    by simp [prodVolEntries, actSupplier, prodExcOf, supKey]⟩,
   get_shares_sum_one_c8 [actSupplier] (by decide) (by decide)
     (by simp [prodVolEntries, actSupplier, prodExcOf, supKey])⟩

/-- Claim C10: a nonempty recorded supplier list whose production volumes
sum to exactly zero makes `get_shares_from_production_volume` fail (the
unguarded division by the zero total), instead of returning a mapping. -/
theorem get_shares_zero_total_c10 (ds : List Activity)
    (hne : prodVolEntries ds ≠ [])
    (htot : ((prodVolEntries ds).map (fun p => p.2)).sum = 0) :
    get_shares_from_production_volume ds = none := by
  unfold get_shares_from_production_volume
  rw [if_neg (by simpa [List.isEmpty_iff] using hne), if_pos htot]

/-- Witness for C10: volumes 3 and -3 sum to zero and crash the share
computation. -/
theorem get_shares_zero_total_c10_witness :
    (prodVolEntries [actCancelVol] ≠ [] ∧
     ((prodVolEntries [actCancelVol]).map (fun p => p.2)).sum = 0) ∧
    get_shares_from_production_volume [actCancelVol] = none :=
  ⟨⟨by decide,
    by simp [prodVolEntries, actCancelVol, prodExcOf, supKey]⟩,
   get_shares_zero_total_c10 [actCancelVol] (by decide)
     (by simp [prodVolEntries, actCancelVol, prodExcOf, supKey])⟩

/-- `Cement.get_suppliers_of_a_region`: datasets whose name is among the
candidate technologies, whose location lies in the region's ecoinvent
expansion, with unit kilogram and the given reference product. -/
def get_suppliers_of_a_region (r2e : String → List String) (db : List Activity)
    (region : String) (techs : List String) (rp : String) : List Activity :=
  db.filter (fun a => techs.contains a.name && (r2e region).contains a.location
    && a.unit == "kilogram" && a.refProduct == rp)

/-- The fuel triples iterated by the fuel loop of
`build_clinker_production_datasets`: (fuel-map key, reference product,
fallback region). -/
def fuelSpecList : List (String × String × String) :=
  [("waste", "waste plastic, mixture", "EUR"),
   ("wood pellet", "wood pellet, measured as dry mass", "EUR"),
   ("hard coal", "hard coal", "REF")]

/-- Quantities of fuel (kg per ton of clinker) per fuel type: total thermal
energy × fuel-mix share × (1 / lower heating value), elementwise over the
(waste, biomass, fossil) axis. -/
def fuel_qty_per_type (energy : ℚ) (mix lhv : Fin 3 → ℚ) : Fin 3 → ℚ :=
  fun i => energy * mix i * (1 / lhv i)

/-- Supplier resolution with the one-shot retry against the secondary region
when the first share mapping is empty (`if len(fuel_suppliers) == 0`). -/
def fuelSuppliersFor (r2e : String → List String) (db : List Activity)
    (k fb : String) (techs : List String) (rp : String) :
    Option (List (SupKey × ℚ)) :=
  match get_shares_from_production_volume
      (get_suppliers_of_a_region r2e db k techs rp) with
  | none => none
  | some s1 =>
    if s1.isEmpty then
      get_shares_from_production_volume
        (get_suppliers_of_a_region r2e db fb techs rp)
    else some s1

/-- The technosphere exchange appended for one fuel supplier. -/
def mkFuelExchange (s : SupKey) (amt : ℚ) : Exchange :=
  { uncertaintyType := 0, loc := 1, amount := amt, type := "technosphere",
    prodVolume := 0, product := some s.2.2.1, name := s.1, unit := s.2.2.2,
    location := s.2.1 }

/-- One iteration of the fuel loop of `build_clinker_production_datasets`:
resolve the suppliers (with fallback) and append one exchange per supplier.
The amount multiplies the supplier share by `fuel_qty_per_type[2].values`
— the source hard-codes index 2 for every fuel of `fuelSpecList` — and
divides by 1000. -/
def clinkerFuelStep (r2e : String → List String) (db : List Activity)
    (fuelMap : String → List String) (k : String)
    (fuel : String × String × String) (fq : Fin 3 → ℚ) : Option (List Exchange) :=
  (fuelSuppliersFor r2e db k fuel.2.2 (fuelMap fuel.1) fuel.2.1).map
    (fun sup => sup.map (fun p => mkFuelExchange p.1 (p.2 * fq 2 / 1000)))

def mixB : Fin 3 → ℚ := fun i => if i.val = 0 then 2 else if i.val = 1 then 3 else 5

def fqBug : Fin 3 → ℚ := fuel_qty_per_type 1 mixB (fun _ => 1)

def r2eC3 : String → List String := fun _ => ["LOC"]

def fmC3 : String → List String := fun _ => ["tech1"]

/-- Claim C3 (code bug witness): at the waste iteration of the fuel loop
(`fuelSpecList` head) with per-type fuel masses (2, 3, 5) and a single
supplier of share 1, the appended amount is 5/1000 — the hard-coded
`fuel_qty_per_type[2]` — while the mass for the waste fuel type would give
2/1000. -/
theorem clinker_fuel_amount_c3_bug :
    (clinkerFuelStep r2eC3 [actSupplier] fmC3 "CHA"
        ("waste", "waste plastic, mixture", "EUR") fqBug).map
        (fun l => l.map (fun e => e.amount)) = some [1/200] ∧
    fqBug 0 = 2 ∧ fqBug 2 = 5 ∧
    ((1 : ℚ) * fqBug 0 / 1000 = 1/500) ∧ ((1 : ℚ)/200 ≠ 1/500) := by
  have hsup : get_suppliers_of_a_region r2eC3 [actSupplier] "CHA"
      (fmC3 "waste") "waste plastic, mixture" = [actSupplier] := by decide
  have hsh : get_shares_from_production_volume [actSupplier] =
      some [(supKey actSupplier, 1)] := by
    have h2 : ((prodVolEntries [actSupplier]).map (fun p => p.2)).sum = 2 := by
      simp [prodVolEntries, actSupplier, prodExcOf]
    unfold get_shares_from_production_volume
    rw [if_neg (by decide), if_neg (by rw [h2]; norm_num), h2]
    norm_num [prodVolEntries, actSupplier, prodExcOf, toDict, dictInsert]
  refine ⟨?_, ?_, ?_, ?_, ?_⟩
  · unfold clinkerFuelStep fuelSuppliersFor
    simp only [hsup, hsh]
    norm_num [mkFuelExchange, fqBug, fuel_qty_per_type, mixB]
  · norm_num [fqBug, fuel_qty_per_type, mixB]
  · norm_num [fqBug, fuel_qty_per_type, mixB]
  · norm_num [fqBug, fuel_qty_per_type, mixB]
  · norm_num

/-- Claim C9 (amended): when the supplier resolution for a fuel/region pair
is empty and the one-shot retry on the fuel's fallback region is empty as
well, the fuel loop iteration succeeds and appends no exchange at all — no
error is raised. -/
theorem clinker_fuel_empty_c9 (r2e : String → List String) (db : List Activity)
    (fm : String → List String) (k : String) (fuel : String × String × String)
    (fq : Fin 3 → ℚ)
    (h1 : get_suppliers_of_a_region r2e db k (fm fuel.1) fuel.2.1 = [])
    (h2 : get_suppliers_of_a_region r2e db fuel.2.2 (fm fuel.1) fuel.2.1 = []) :
    clinkerFuelStep r2e db fm k fuel fq = some [] := by
  have hz : get_shares_from_production_volume ([] : List Activity) = some [] := by
    simp [get_shares_from_production_volume, prodVolEntries]
  unfold clinkerFuelStep fuelSuppliersFor
  rw [h1, h2, hz]
  simp

def r2eEmpty : String → List String := fun _ => []

def fmC9 : String → List String := fun _ => ["techX"]

/-- Counterexample to claim C9 as stated: with no supplier in the region nor
in the fallback region, the fuel iteration completes successfully with an
empty exchange list instead of failing. -/
theorem clinker_fuel_no_error_c9_counterexample :
    clinkerFuelStep r2eEmpty [actSteel] fmC9 "CHA"
        ("waste", "waste plastic, mixture", "EUR") (fun _ => 1) = some [] ∧
    clinkerFuelStep r2eEmpty [actSteel] fmC9 "CHA"
        ("waste", "waste plastic, mixture", "EUR") (fun _ => 1) ≠ none := by
  have h1 : get_suppliers_of_a_region r2eEmpty [actSteel] "CHA"
      (fmC9 "waste") "waste plastic, mixture" = [] := by decide
  have h2 : get_suppliers_of_a_region r2eEmpty [actSteel] "EUR"
      (fmC9 "waste") "waste plastic, mixture" = [] := by decide
  have hz : get_shares_from_production_volume ([] : List Activity) = some [] := by
    simp [get_shares_from_production_volume, prodVolEntries]
  have hmain : clinkerFuelStep r2eEmpty [actSteel] fmC9 "CHA"
      ("waste", "waste plastic, mixture", "EUR") (fun _ => 1) = some [] := by
    unfold clinkerFuelStep fuelSuppliersFor
    rw [h1, h2, hz]
    simp
  exact ⟨hmain, by rw [hmain]; exact Option.noConfusion⟩

/-- Witness for the amended claim C9 at a different concrete graph. -/
theorem clinker_fuel_empty_c9_witness :
    (get_suppliers_of_a_region r2eEmpty [actClinkerRoW] "USA"
        (fmC9 "hard coal") "hard coal" = [] ∧
     get_suppliers_of_a_region r2eEmpty [actClinkerRoW] "REF"
        (fmC9 "hard coal") "hard coal" = []) ∧
    clinkerFuelStep r2eEmpty [actClinkerRoW] fmC9 "USA"
        ("hard coal", "hard coal", "REF") (fun _ => 1) = some [] :=
  ⟨⟨by decide, by decide⟩,
   clinker_fuel_empty_c9 r2eEmpty [actClinkerRoW] fmC9 "USA"
     ("hard coal", "hard coal", "REF") (fun _ => 1) (by decide) (by decide)⟩

/-- Substring occurrence on character lists (for `ws.contains("name", x)`). -/
def subListAt (pat : List Char) : List Char → Bool
  | [] => pat.isEmpty
  | c :: rest => pat.isPrefixOf (c :: rest) || subListAt pat rest

/-- `x in s` for strings. -/
def strContainsSub (s pat : String) : Bool := subListAt pat.data s.data

/-- `wurst.rescale_exchange(exc, value, remove_uncertainty=True)` — external
dependency called by `update_pollutant_emissions`: it multiplies the
exchange amount by the factor and resets the uncertainty descriptor
(uncertainty type 0, loc set to the new amount).  The multiplicative
semantics is pinned down by the caller itself: the nonzero branch of
`update_pollutant_emissions` passes `remind_emission / exc["amount"]` as
the factor precisely so that the product lands at the target value. -/
def rescale_exchange (e : Exchange) (value : ℚ) : Exchange :=
  { e with
    amount := e.amount * value
    uncertaintyType := 0
    loc := e.amount * value }

/-- Sequence a fallible rewrite over a list (a Python for-loop whose body
may raise). -/
def mapOpt {α β : Type} (f : α → Option β) : List α → Option (List β)
  | [] => some []
  | x :: xs =>
    match f x, mapOpt f xs with
    | some y, some ys => some (y :: ys)
    | _, _ => none

/-- The per-exchange body of `Cement.update_pollutant_emissions`: biosphere
exchanges whose name contains an emissions-map key are rescaled toward the
scenario emission value of their label (`emVal label`, the GAINS lookup
with its region fallback being external data); a zero current amount is
guarded by passing `remind_emission / 1` as the factor instead of
`remind_emission / exc["amount"]`.  A matched name absent from the map
raises `KeyError` (`none`). -/
def updatePollutantExc (emKeys : List String) (emap : String → Option String)
    (emVal : String → ℚ) (e : Exchange) : Option Exchange :=
  if e.type == "biosphere" && emKeys.any (fun x => strContainsSub e.name x) then
    match emap e.name with
    | none => none
    | some label =>
      some (if e.amount = 0 then rescale_exchange e (emVal label / 1)
            else rescale_exchange e (emVal label / e.amount))
  else some e

/-- `Cement.update_pollutant_emissions` over one dataset. -/
def update_pollutant_emissions (emKeys : List String)
    (emap : String → Option String) (emVal : String → ℚ) (a : Activity) :
    Option Activity :=
  (mapOpt (updatePollutantExc emKeys emap emVal) a.exchanges).map
    (fun es => { a with exchanges := es })

def excNOx : Exchange :=
  { name := "Nitrogen oxides", type := "biosphere", amount := 0,
    uncertaintyType := 2, loc := 3 }

def actPoll : Activity :=
  { name := "clinker production", refProduct := "clinker", location := "CHA",
    unit := "kilogram", code := "p0", exchanges := [excNOx] }

def emapC5 : String → Option String := fun n =>
  if n == "Nitrogen oxides" then some "NOx" else none

/-- Claim C5 (code bug witness): for a matched biosphere exchange with
amount 0 and scenario emission value 5.2, the update multiplies the zero
amount by 5.2/1, leaving it at 0 — it does not set it to 5.2 — although the
uncertainty descriptor is indeed reset. -/
theorem pollutant_zero_amount_c5_bug :
    (update_pollutant_emissions ["Nitrogen oxides"] emapC5 (fun _ => 26/5)
        actPoll).map (fun a => a.exchanges.map (fun e => (e.amount, e.uncertaintyType)))
      = some [(0, 0)] ∧ (0 : ℚ) ≠ 26/5 := by
  have hexc : updatePollutantExc ["Nitrogen oxides"] emapC5 (fun _ => (26:ℚ)/5) excNOx
      = some { excNOx with amount := 0, uncertaintyType := 0, loc := 0 } := by
    unfold updatePollutantExc
    rw [if_pos (by decide)]
    simp [emapC5, excNOx, rescale_exchange]
  have hm : mapOpt (updatePollutantExc ["Nitrogen oxides"] emapC5 (fun _ => (26:ℚ)/5))
      [excNOx] = some [{ excNOx with amount := 0, uncertaintyType := 0, loc := 0 }] := by
    simp only [mapOpt, hexc]
  constructor
  · unfold update_pollutant_emissions
    rw [show actPoll.exchanges = [excNOx] from rfl, hm]
    rfl
  · norm_num

/-- The per-exchange body of `Cement.relink_datasets`: a technosphere
exchange matching (name, product) whose location is not yet a REMIND region
is relocated to the region returned by the crosswalk. -/
def relinkExc (geo : String → String) (regions : List String)
    (name rp : String) (e : Exchange) : Exchange :=
  if e.name == name && e.product == some rp && e.type == "technosphere"
      && !(decide (e.location ∈ regions)) then
    { e with location := geo e.location }
  else e

/-- `Cement.relink_datasets` over the whole database. -/
def relink_datasets (geo : String → String) (regions : List String)
    (name rp : String) (db : List Activity) : List Activity :=
  db.map (fun a =>
    { a with exchanges := a.exchanges.map (relinkExc geo regions name rp) })

theorem relinkExc_idem (geo : String → String) (regions : List String)
    (name rp : String) (e : Exchange) (hgeo : ∀ l, geo l ∈ regions) :
    relinkExc geo regions name rp (relinkExc geo regions name rp e) =
      relinkExc geo regions name rp e := by
  unfold relinkExc
  by_cases hg : (e.name == name && e.product == some rp && e.type == "technosphere"
      && !(decide (e.location ∈ regions))) = true
  · rw [if_pos hg, if_neg ?_]
    simp only [Bool.and_eq_true, Bool.not_eq_true', not_and]
    intro _
    simp [decide_eq_true (hgeo e.location)]
  · rw [if_neg hg, if_neg hg]

/-- Claim C7: `relink_datasets(name, ref_product)` is idempotent — the
crosswalk (modelled from the spec, §4.1/§4.6: `fine_to_region` always
returns a target region) leaves every rewritten location inside the region
list, so a second pass changes nothing. -/
theorem relink_datasets_idem_c7 (geo : String → String) (regions : List String)
    (name rp : String) (db : List Activity) (hgeo : ∀ l, geo l ∈ regions) :
    relink_datasets geo regions name rp (relink_datasets geo regions name rp db) =
      relink_datasets geo regions name rp db := by
  unfold relink_datasets
  rw [List.map_map]
  apply List.map_congr_left
  intro a _
  cases a with
  | mk n r l u c ex =>
    simp only [Function.comp]
    congr 1
    rw [List.map_map]
    exact List.map_congr_left (fun e _ => relinkExc_idem geo regions name rp e hgeo)

def excLink : Exchange :=
  { name := "clinker production", product := some "clinker", location := "FR",
    unit := "kilogram", type := "technosphere", amount := 1 }

def actCementFR : Activity :=
  { name := "cement production, Portland", refProduct := "cement, Portland",
    location := "FR", unit := "kilogram", code := "w1", exchanges := [excLink] }

def geoC7 : String → String := fun _ => "EUR"

/-- Witness for C7 on a concrete one-activity database whose matched
exchange still has an ecoinvent location. -/
theorem relink_datasets_idem_c7_witness :
    (∀ l : String, geoC7 l ∈ (["EUR"] : List String)) ∧
    relink_datasets geoC7 ["EUR"] "clinker production" "clinker"
        (relink_datasets geoC7 ["EUR"] "clinker production" "clinker" [actCementFR]) =
      relink_datasets geoC7 ["EUR"] "clinker production" "clinker" [actCementFR] :=
  ⟨fun _ => List.mem_cons_self _ _,
   relink_datasets_idem_c7 geoC7 ["EUR"] "clinker production" "clinker" [actCementFR]
     (fun _ => List.mem_cons_self _ _)⟩

/-- State of the rebalancing arrays of `adjust_clinker_ratio`: the share
array and the progressively masked clinker-fraction array (`none` is nan,
and the mask is cumulative because the source reassigns `ratio` each
iteration). -/
structure RState where
  shares : List (Option ℚ)
  rts : List (Option ℚ)
deriving DecidableEq, Repr

/-- `share[share == 0] = np.nan`. -/
def maskZeros (l : List (Option ℚ)) : List (Option ℚ) :=
  l.map (fun o => if o = some 0 then none else o)

/-- `np.where(share >= 0.001, ratio_array, np.nan)`; a nan share compares
false, and an already-nan ratio entry stays nan. -/
def maskBelowFloor (sh rt : List (Option ℚ)) : List (Option ℚ) :=
  List.zipWith (fun s r =>
    match s with
    | some v => if v ≥ 1/1000 then r else none
    | none => none) sh rt

/-- `np.nanargmax`: (index, value) of the largest non-nan entry, first
occurrence on ties; `none` when every entry is nan (numpy raises). -/
def idxMax : List (Option ℚ) → Option (Nat × ℚ)
  | [] => none
  | none :: rest => (idxMax rest).map (fun p => (p.1 + 1, p.2))
  | some v :: rest =>
    match idxMax rest with
    | none => some (0, v)
    | some (j, w) => if w > v then some (j + 1, w) else some (0, v)

/-- `np.nanargmin`, symmetric to `idxMax`. -/
def idxMin : List (Option ℚ) → Option (Nat × ℚ)
  | [] => none
  | none :: rest => (idxMin rest).map (fun p => (p.1 + 1, p.2))
  | some v :: rest =>
    match idxMin rest with
    | none => some (0, v)
    | some (j, w) => if w < v then some (j + 1, w) else some (0, v)

/-- In-place update of one array cell (a nan cell stays nan, an index past
the end is never produced by `idxMax`/`idxMin`). -/
def modAt : List (Option ℚ) → Nat → (ℚ → ℚ) → List (Option ℚ)
  | [], _, _ => []
  | x :: xs, 0, f => x.map f :: xs
  | x :: xs, n + 1, f => x :: modAt xs n f

/-- `np.nan_to_num`. -/
def nanToNum (l : List (Option ℚ)) : List ℚ := l.map (fun o => o.getD 0)

def nanSum (l : List (Option ℚ)) : ℚ := (nanToNum l).sum

/-- `(a * b).sum()` of two equal-length arrays. -/
def dotSum (a b : List ℚ) : ℚ := (List.zipWith (fun x y => x * y) a b).sum

/-- One iteration of the while-loop of `adjust_clinker_ratio`: nan out zero
shares, mask ratios of shares below the 0.1% floor, move one percentage
point from the highest-ratio supplier to the lowest-ratio one, and
recompute the average as `(nan_to_num(ratio) * nan_to_num(share)).sum()`.
`none` models the `ValueError` numpy raises when all ratios are nan. -/
def rStep (s : RState) : Option (RState × ℚ) :=
  let sh1 := maskZeros s.shares
  let rt1 := maskBelowFloor sh1 s.rts
  match idxMax rt1, idxMin rt1 with
  | some hi, some lo =>
    let sh2 := modAt (modAt sh1 hi.1 (fun v => v - 1/100)) lo.1 (fun v => v + 1/100)
    some ({ shares := sh2, rts := rt1 }, dotSum (nanToNum rt1) (nanToNum sh2))
  | _, _ => none

/-- The while-loop `while average_ratio > ratio_to_reach`, supplied with
fuel; `none` means the loop either crashed or has not terminated within
`fuel` iterations (the source has no iteration cap). -/
def rLoop (target : ℚ) : Nat → RState → ℚ → Option (RState × ℚ)
  | 0, _, _ => none
  | n + 1, s, avg =>
    if avg > target then
      match rStep s with
      | some p => rLoop target n p.1 p.2
      | none => none
    else some (s, avg)

/-- Unguarded iteration of the loop body, used to exhibit the successive
averages of a concrete run. -/
def runSteps : Nat → RState → ℚ → Option (RState × ℚ)
  | 0, s, avg => some (s, avg)
  | n + 1, s, _ =>
    match rStep s with
    | some p => runSteps n p.1 p.2
    | none => none

/-- `'cement' in exc['product'] and exc['type'] == "technosphere"` (a
missing product key raises `KeyError` before the type check). -/
def cementPred (e : Exchange) : Bool :=
  match e.product with
  | some p => strContainsSub p "cement" && e.type == "technosphere"
  | none => false

/-- The write-back loop of `adjust_clinker_ratio`: the i-th
cement-constituent exchange receives `share[i]`; running out of shares
would be an `IndexError` (`none`). -/
def writeBack : List Exchange → List ℚ → Option (List Exchange)
  | [], _ => some []
  | e :: es, vals =>
    if cementPred e then
      match vals with
      | [] => none
      | v :: vs => (writeBack es vs).map (fun r => { e with amount := v } :: r)
    else (writeBack es vals).map (fun r => e :: r)

/-- `Cement.adjust_clinker_ratio` on one dataset: extract (share, ratio)
pairs from the cement technosphere exchanges (`tbl` is the
clinker-to-cement ratio table keyed by (name, location), a missing key
raising `KeyError`), run the while-loop, then write
`np.nan_to_num(share)` back in order. -/
def adjust_clinker_one (tbl : String → String → Option ℚ) (target : ℚ)
    (fuel : Nat) (a : Activity) : Option Activity :=
  if a.exchanges.all (fun e => e.product.isSome) then
    match mapOpt (fun e => tbl e.name e.location) (a.exchanges.filter cementPred) with
    | none => none
    | some rts0 =>
      match rLoop target fuel
          { shares := ((a.exchanges.filter cementPred).map (fun e => e.amount)).map some
            rts := rts0.map some }
          (dotSum ((a.exchanges.filter cementPred).map (fun e => e.amount)) rts0) with
      | none => none
      | some p =>
        match writeBack a.exchanges (nanToNum p.1.shares) with
        | none => none
        | some es2 => some { a with exchanges := es2 }
  else none

/-- Claim C4 (amended): whenever the adjustment while-loop terminates, the
final weighted average ratio is at most the REMIND target value (that is
what the loop guard tests); the loop has no iteration cap and need not
terminate at all, see the non-termination counterexample. -/
theorem adjust_loop_final_le_c4 (target : ℚ) :
    ∀ (n : Nat) (s : RState) (avg : ℚ) (s2 : RState) (avg2 : ℚ),
      rLoop target n s avg = some (s2, avg2) → avg2 ≤ target := by
  intro n
  induction n with
  | zero =>
    intro s avg s2 avg2 h
    exact absurd h (by simp [rLoop])
  | succ n ih =>
    intro s avg s2 avg2 h
    unfold rLoop at h
    by_cases hg : avg > target
    · rw [if_pos hg] at h
      cases hs : rStep s with
      | none => rw [hs] at h; exact absurd h (by simp)
      | some p =>
        rw [hs] at h
        exact ih p.1 p.2 s2 avg2 h
    · rw [if_neg hg] at h
      have heq := Option.some.inj h
      rw [show avg2 = avg from (congrArg Prod.snd heq).symm]
      exact le_of_not_lt hg

def rsW : RState := { shares := [some 1], rts := [some (1/2)] }

/-- Witness for the amended claim C4: a loop that exits at once (average
1/2 against target 1) ends with final average ≤ target. -/
theorem adjust_loop_final_le_c4_witness :
    rLoop 1 1 rsW (1/2) = some (rsW, 1/2) ∧ ((1:ℚ)/2 ≤ 1) :=
  ⟨by norm_num [rLoop],
   adjust_loop_final_le_c4 1 1 rsW (1/2) rsW (1/2) (by norm_num [rLoop])⟩

def rsA : RState :=
  { shares := [some (1/2000), some 3], rts := [some (9/10), some (3/10)] }

def rsB : RState :=
  { shares := [some (1/2000), some 3], rts := [none, some (3/10)] }

/-- Counterexample to claim C4 as stated: the input below satisfies every
hypothesis of the claim (initial weighted average 18009/20000 ≥ target 1/2,
ratio 9/10 above the target and 3/10 below it), yet the loop is still
running after 100001 iterations — more than 100 divided by the floor
increment under either reading (100/0.01 = 10^4, 100/0.001 = 10^5): the
high-ratio supplier's share sits below the 0.1% floor, so its ratio is
masked, both `nanargmax` and `nanargmin` select the same surviving
supplier, and the state repeats forever with average 9/10 > 1/2. -/
theorem adjust_loop_nonterm_c4_counterexample :
    rLoop (1/2) 100001 rsA (18009/20000) = none ∧
    dotSum (nanToNum rsA.shares) (nanToNum rsA.rts) = 18009/20000 ∧
    ((1:ℚ)/2 ≤ 18009/20000) ∧
    rsA.rts = [some (9/10), some (3/10)] ∧
    ((1:ℚ)/2 < 9/10) ∧ ((3:ℚ)/10 < 1/2) := by
  have hstepA : rStep rsA = some (rsB, 9/10) := by
    norm_num [rStep, maskZeros, maskBelowFloor, idxMax, idxMin, modAt,
      nanToNum, dotSum, rsA, rsB]
  have hstepB : rStep rsB = some (rsB, 9/10) := by
    norm_num [rStep, maskZeros, maskBelowFloor, idxMax, idxMin, modAt,
      nanToNum, dotSum, rsB]
  have hnone : ∀ (n : Nat) (avg : ℚ), avg > 1/2 → rLoop (1/2) n rsB avg = none := by
    intro n
    induction n with
    | zero => intro avg _; rfl
    | succ n ih =>
      intro avg havg
      unfold rLoop
      rw [if_pos havg, hstepB]
      exact ih (9/10) (by norm_num)
  refine ⟨?_, ?_, by norm_num, rfl, by norm_num, by norm_num⟩
  · show rLoop (1/2) (100000 + 1) rsA (18009/20000) = none
    unfold rLoop
    rw [if_pos (by norm_num), hstepA]
    exact hnone 100000 (9/10) (by norm_num)
  · norm_num [dotSum, nanToNum, rsA]

theorem modAt_length : ∀ (l : List (Option ℚ)) (i : Nat) (f : ℚ → ℚ),
    (modAt l i f).length = l.length
  | [], _, _ => rfl
  | _ :: _, 0, _ => rfl
  | x :: xs, n + 1, f => by simp [modAt, modAt_length xs n f]

theorem nanSum_cons (o : Option ℚ) (l : List (Option ℚ)) :
    nanSum (o :: l) = o.getD 0 + nanSum l := rfl

theorem nanSum_maskZeros (l : List (Option ℚ)) :
    nanSum (maskZeros l) = nanSum l := by
  induction l with
  | nil => rfl
  | cons x xs ih =>
    simp only [maskZeros, List.map_cons] at ih ⊢
    by_cases hx : x = some 0
    · rw [if_pos hx, hx, nanSum_cons, nanSum_cons, ih]
      simp
    · rw [if_neg hx, nanSum_cons, nanSum_cons, ih]

theorem maskZeros_length (l : List (Option ℚ)) :
    (maskZeros l).length = l.length := List.length_map l _

theorem modAt_nanSum : ∀ (l : List (Option ℚ)) (i : Nat) (v : ℚ) (f : ℚ → ℚ),
    l.get? i = some (some v) →
    nanSum (modAt l i f) = nanSum l - v + f v := by
  intro l
  induction l with
  | nil => intro i v f h; simp at h
  | cons x xs ih =>
    intro i v f h
    cases i with
    | zero =>
      rw [List.get?_cons_zero] at h
      rw [Option.some.inj h]
      simp only [modAt, Option.map_some']
      rw [nanSum_cons, nanSum_cons]
      simp only [Option.getD_some]
      ring
    | succ n =>
      rw [List.get?_cons_succ] at h
      simp only [modAt]
      rw [nanSum_cons, nanSum_cons, ih n v f h]
      ring

theorem modAt_get_same : ∀ (l : List (Option ℚ)) (i : Nat) (v : ℚ) (f : ℚ → ℚ),
    l.get? i = some (some v) → (modAt l i f).get? i = some (some (f v)) := by
  intro l
  induction l with
  | nil => intro i v f h; simp at h
  | cons x xs ih =>
    intro i v f h
    cases i with
    | zero =>
      rw [List.get?_cons_zero] at h
      rw [Option.some.inj h]
      rfl
    | succ n =>
      rw [List.get?_cons_succ] at h
      simpa [modAt] using ih n v f h

theorem modAt_get_ne : ∀ (l : List (Option ℚ)) (i j : Nat) (f : ℚ → ℚ),
    i ≠ j → (modAt l i f).get? j = l.get? j := by
  intro l
  induction l with
  | nil => intro i j f _; simp [modAt]
  | cons x xs ih =>
    intro i j f hne
    cases i with
    | zero =>
      cases j with
      | zero => exact absurd rfl hne
      | succ m => simp [modAt]
    | succ n =>
      cases j with
      | zero => simp [modAt]
      | succ m =>
        simp only [modAt, List.get?_cons_succ]
        exact ih n m f (fun hc => hne (by rw [hc]))

theorem idxMax_get : ∀ (l : List (Option ℚ)) (p : Nat × ℚ),
    idxMax l = some p → l.get? p.1 = some (some p.2) := by
  intro l
  induction l with
  | nil => intro p h; simp [idxMax] at h
  | cons x xs ih =>
    intro p h
    cases x with
    | none =>
      simp only [idxMax] at h
      cases hr : idxMax xs with
      | none => rw [hr] at h; simp at h
      | some q =>
        rw [hr] at h
        simp only [Option.map_some'] at h
        rw [← Option.some.inj h]
        simpa using ih q hr
    | some v =>
      simp only [idxMax] at h
      cases hr : idxMax xs with
      | none =>
        rw [hr] at h
        rw [← Option.some.inj h]
        rfl
      | some q =>
        obtain ⟨j, w⟩ := q
        rw [hr] at h
        have h2 : (if w > v then some (j + 1, w) else some ((0 : Nat), v)) = some p := h
        by_cases hw : w > v
        · rw [if_pos hw] at h2
          rw [← Option.some.inj h2]
          simpa using ih (j, w) hr
        · rw [if_neg hw] at h2
          rw [← Option.some.inj h2]
          rfl

theorem idxMin_get : ∀ (l : List (Option ℚ)) (p : Nat × ℚ),
    idxMin l = some p → l.get? p.1 = some (some p.2) := by
  intro l
  induction l with
  | nil => intro p h; simp [idxMin] at h
  | cons x xs ih =>
    intro p h
    cases x with
    | none =>
      simp only [idxMin] at h
      cases hr : idxMin xs with
      | none => rw [hr] at h; simp at h
      | some q =>
        rw [hr] at h
        simp only [Option.map_some'] at h
        rw [← Option.some.inj h]
        simpa using ih q hr
    | some v =>
      simp only [idxMin] at h
      cases hr : idxMin xs with
      | none =>
        rw [hr] at h
        rw [← Option.some.inj h]
        rfl
      | some q =>
        obtain ⟨j, w⟩ := q
        rw [hr] at h
        have h2 : (if w < v then some (j + 1, w) else some ((0 : Nat), v)) = some p := h
        by_cases hw : w < v
        · rw [if_pos hw] at h2
          rw [← Option.some.inj h2]
          simpa using ih (j, w) hr
        · rw [if_neg hw] at h2
          rw [← Option.some.inj h2]
          rfl

theorem maskBelowFloor_get : ∀ (sh rt : List (Option ℚ)) (i : Nat) (v : ℚ),
    (maskBelowFloor sh rt).get? i = some (some v) →
    ∃ w, sh.get? i = some (some w) := by
  intro sh
  induction sh with
  | nil => intro rt i v h; simp [maskBelowFloor] at h
  | cons s sh ih =>
    intro rt i v h
    cases rt with
    | nil => simp [maskBelowFloor] at h
    | cons r rt =>
      simp only [maskBelowFloor, List.zipWith_cons_cons] at h
      cases i with
      | zero =>
        rw [List.get?_cons_zero] at h
        cases s with
        | none => simp at h
        | some w => exact ⟨w, rfl⟩
      | succ n =>
        rw [List.get?_cons_succ] at h
        simpa [maskBelowFloor] using ih rt n v h

/-- One loop iteration conserves the nan-to-num sum of the share array (the
−1% and +1% transfers cancel, zeroed-out entries contribute 0 both before
and after), and preserves its length. -/
theorem rStep_shares (s s2 : RState) (a2 : ℚ) (h : rStep s = some (s2, a2)) :
    nanSum s2.shares = nanSum s.shares ∧ s2.shares.length = s.shares.length := by
  simp only [rStep] at h
  cases hmax : idxMax (maskBelowFloor (maskZeros s.shares) s.rts) with
  | none =>
    rw [hmax] at h
    exact absurd h (by simp)
  | some hi =>
    rw [hmax] at h
    cases hmin : idxMin (maskBelowFloor (maskZeros s.shares) s.rts) with
    | none => rw [hmin] at h; exact absurd h (by simp)
    | some lo =>
      rw [hmin] at h
      have hpair := Option.some.inj h
      rw [Prod.mk.injEq] at hpair
      obtain ⟨hfst, -⟩ := hpair
      rw [← hfst]
      have hrt_hi := idxMax_get _ hi hmax
      obtain ⟨wh, hwh⟩ := maskBelowFloor_get (maskZeros s.shares) s.rts hi.1 hi.2 hrt_hi
      have hrt_lo := idxMin_get _ lo hmin
      obtain ⟨wl, hwl⟩ := maskBelowFloor_get (maskZeros s.shares) s.rts lo.1 lo.2 hrt_lo
      obtain ⟨w2, hw2⟩ : ∃ w2, (modAt (maskZeros s.shares) hi.1
          (fun v => v - 1/100)).get? lo.1 = some (some w2) := by
        by_cases heq : hi.1 = lo.1
        · exact ⟨wh - 1/100, by rw [← heq]; exact modAt_get_same _ _ _ _ hwh⟩
        · exact ⟨wl, by rw [modAt_get_ne _ _ _ _ heq]; exact hwl⟩
      constructor
      · dsimp only
        rw [modAt_nanSum _ _ _ _ hw2, modAt_nanSum _ _ _ _ hwh, nanSum_maskZeros]
        ring
      · dsimp only
        rw [modAt_length, modAt_length, maskZeros_length]

/-- The whole loop conserves the share sum and the array length. -/
theorem rLoop_shares (target : ℚ) : ∀ (n : Nat) (s : RState) (avg : ℚ)
    (p : RState × ℚ), rLoop target n s avg = some p →
    nanSum p.1.shares = nanSum s.shares ∧ p.1.shares.length = s.shares.length := by
  intro n
  induction n with
  | zero => intro s avg p h; exact absurd h (by simp [rLoop])
  | succ n ih =>
    intro s avg p h
    unfold rLoop at h
    by_cases hg : avg > target
    · rw [if_pos hg] at h
      cases hs : rStep s with
      | none => rw [hs] at h; exact absurd h (by simp)
      | some q =>
        rw [hs] at h
        obtain ⟨hsum, hlen⟩ := ih q.1 q.2 p h
        obtain ⟨hsum2, hlen2⟩ := rStep_shares s q.1 q.2 (by rw [hs])
        exact ⟨hsum.trans hsum2, hlen.trans hlen2⟩
    · rw [if_neg hg] at h
      rw [← Option.some.inj h]
      exact ⟨rfl, rfl⟩

theorem cementPred_set_amount (e : Exchange) (v : ℚ) :
    cementPred { e with amount := v } = cementPred e := rfl

/-- The write-back loop assigns the first n share values (n = number of
cement-constituent exchanges) to those exchanges in order. -/
theorem writeBack_amounts : ∀ (es : List Exchange) (vals : List ℚ)
    (es2 : List Exchange), writeBack es vals = some es2 →
    (es2.filter cementPred).map (fun e => e.amount)
      = vals.take (es.filter cementPred).length := by
  intro es
  induction es with
  | nil =>
    intro vals es2 h
    rw [← Option.some.inj h]
    simp
  | cons e es ih =>
    intro vals es2 h
    by_cases hc : cementPred e = true
    · simp only [writeBack] at h
      rw [if_pos hc] at h
      split at h
      · exact absurd h (by simp)
      · rename_i v vs
        cases hr : writeBack es vs with
        | none => rw [hr] at h; simp at h
        | some r =>
          rw [hr] at h
          simp only [Option.map_some'] at h
          rw [← Option.some.inj h]
          simp only [List.filter_cons, cementPred_set_amount, hc, if_true,
            List.map_cons, List.length_cons, List.take_succ_cons]
          rw [ih vs r hr]
    · have hcf : cementPred e = false := by
        cases hb : cementPred e
        · rfl
        · exact absurd hb hc
      simp only [writeBack] at h
      rw [if_neg hc] at h
      cases hr : writeBack es vals with
      | none => rw [hr] at h; simp at h
      | some r =>
        rw [hr] at h
        simp only [Option.map_some'] at h
        rw [← Option.some.inj h]
        simp only [List.filter_cons, hcf]
        exact ih vals r hr

theorem nanSum_map_some (l : List ℚ) : nanSum (l.map some) = l.sum := by
  induction l with
  | nil => rfl
  | cons x xs ih =>
    rw [List.map_cons, nanSum_cons, ih]
    simp

/-- Claim C6 (amended): whenever `adjust_clinker_ratio` terminates on a
dataset, the sum of the cement-constituent share amounts written back
equals the sum of those amounts at entry — exactly, in exact rational
arithmetic; the weighted average ratio, however, need not strictly
decrease at every iteration (see the counterexample). -/
theorem adjust_clinker_conserves_c6 (tbl : String → String → Option ℚ)
    (target : ℚ) (fuel : Nat) (a a2 : Activity)
    (h : adjust_clinker_one tbl target fuel a = some a2) :
    ((a2.exchanges.filter cementPred).map (fun e => e.amount)).sum =
      ((a.exchanges.filter cementPred).map (fun e => e.amount)).sum := by
  unfold adjust_clinker_one at h
  by_cases hall : (a.exchanges.all fun e => e.product.isSome) = true
  · rw [if_pos hall] at h
    split at h
    · exact absurd h (by simp)
    · rename_i rts0 hm
      split at h
      · exact absurd h (by simp)
      · rename_i p hl
        split at h
        · exact absurd h (by simp)
        · rename_i es2 hw
          have ha2 : a2 = { a with exchanges := es2 } := (Option.some.inj h).symm
          obtain ⟨hsum, hlen⟩ := rLoop_shares target fuel _ _ p hl
          have hlen2 : p.1.shares.length = (a.exchanges.filter cementPred).length := by
            rw [hlen]; simp
          have hwb := writeBack_amounts a.exchanges (nanToNum p.1.shares) es2 hw
          have hlen3 : (nanToNum p.1.shares).length = p.1.shares.length := by
            simp [nanToNum]
          have htake : (nanToNum p.1.shares).take
              ((a.exchanges.filter cementPred).length) = nanToNum p.1.shares := by
            rw [← hlen2, ← hlen3]
            exact List.take_length _
          rw [ha2]
          show ((es2.filter cementPred).map (fun e => e.amount)).sum = _
          rw [hwb, htake]
          show (nanToNum p.1.shares).sum = _
          have hns : (nanToNum p.1.shares).sum = nanSum p.1.shares := rfl
          rw [hns, hsum, nanSum_map_some]
  · rw [if_neg hall] at h
    exact absurd h (by simp)

def rsC6 : RState :=
  { shares := [some (3/200), some 1, some 1]
    rts := [some (9/10), some (1/5), some (1/2)] }

def rsD1 : RState :=
  { shares := [some (1/200), some (101/100), some 1]
    rts := [some (9/10), some (1/5), some (1/2)] }

def rsD2 : RState :=
  { shares := [some (-1/200), some (51/50), some 1]
    rts := [some (9/10), some (1/5), some (1/2)] }

def rsD3 : RState :=
  { shares := [some (-1/200), some (103/100), some (99/100)]
    rts := [none, some (1/5), some (1/2)] }

def rsD4 : RState :=
  { shares := [some (-1/200), some (26/25), some (49/50)]
    rts := [none, some (1/5), some (1/2)] }

/-- Counterexample to claim C6 as stated: a run that terminates after four
iterations (target 699/1000) in which the weighted average *increases* from
1399/2000 after iteration 2 to 701/1000 after iteration 3 — the
highest-ratio supplier's share was driven to −1/200, its masked (negative)
contribution dropped out of the average, and both averages are still above
the target, so these are genuine pre-termination iterations. -/
theorem adjust_loop_increase_c6_counterexample :
    rLoop (699/1000) 10 rsC6 (1427/2000) = some (rsD4, 349/500) ∧
    (runSteps 2 rsC6 (1427/2000)).map (fun p => p.2) = some (1399/2000) ∧
    (runSteps 3 rsC6 (1427/2000)).map (fun p => p.2) = some (701/1000) ∧
    ((699:ℚ)/1000 < 1399/2000) ∧ ((1399:ℚ)/2000 < 701/1000) := by
  have h1 : rStep rsC6 = some (rsD1, 1413/2000) := by
    norm_num [rStep, maskZeros, maskBelowFloor, idxMax, idxMin, modAt,
      nanToNum, dotSum, rsC6, rsD1]
  have h2 : rStep rsD1 = some (rsD2, 1399/2000) := by
    norm_num [rStep, maskZeros, maskBelowFloor, idxMax, idxMin, modAt,
      nanToNum, dotSum, rsD1, rsD2]
  have h3 : rStep rsD2 = some (rsD3, 701/1000) := by
    norm_num [rStep, maskZeros, maskBelowFloor, idxMax, idxMin, modAt,
      nanToNum, dotSum, rsD2, rsD3]
  have h4 : rStep rsD3 = some (rsD4, 349/500) := by
    norm_num [rStep, maskZeros, maskBelowFloor, idxMax, idxMin, modAt,
      nanToNum, dotSum, rsD3, rsD4]
  refine ⟨?_, ?_, ?_, by norm_num, by norm_num⟩
  · show rLoop (699/1000) (9+1) rsC6 (1427/2000) = some (rsD4, 349/500)
    unfold rLoop
    rw [if_pos (by norm_num), h1]
    show rLoop (699/1000) (8+1) rsD1 (1413/2000) = some (rsD4, 349/500)
    unfold rLoop
    rw [if_pos (by norm_num), h2]
    show rLoop (699/1000) (7+1) rsD2 (1399/2000) = some (rsD4, 349/500)
    unfold rLoop
    rw [if_pos (by norm_num), h3]
    show rLoop (699/1000) (6+1) rsD3 (701/1000) = some (rsD4, 349/500)
    unfold rLoop
    rw [if_pos (by norm_num), h4]
    show rLoop (699/1000) (5+1) rsD4 (349/500) = some (rsD4, 349/500)
    unfold rLoop
    rw [if_neg (by norm_num)]
  · show (runSteps (1+1) rsC6 (1427/2000)).map (fun p => p.2) = some (1399/2000)
    unfold runSteps
    rw [h1]
    show (runSteps (0+1) rsD1 (1413/2000)).map (fun p => p.2) = some (1399/2000)
    unfold runSteps
    rw [h2]
    rfl
  · show (runSteps (2+1) rsC6 (1427/2000)).map (fun p => p.2) = some (701/1000)
    unfold runSteps
    rw [h1]
    show (runSteps (1+1) rsD1 (1413/2000)).map (fun p => p.2) = some (701/1000)
    unfold runSteps
    rw [h2]
    show (runSteps (0+1) rsD2 (1399/2000)).map (fun p => p.2) = some (701/1000)
    unfold runSteps
    rw [h3]
    rfl

def excCemA : Exchange :=
  { name := "cemA", product := some "cement type A", location := "EUR",
    unit := "kilogram", type := "technosphere", amount := 2 }

def excCemB : Exchange :=
  { name := "cemB", product := some "cement type B", location := "EUR",
    unit := "kilogram", type := "technosphere", amount := 3 }

def actUnspec : Activity :=
  { name := "cement, all types to generic market for cement, unspecified",
    refProduct := "cement, unspecified", location := "EUR", unit := "kilogram",
    code := "u1", exchanges := [excCemA, excCemB] }

def tblC6 : String → String → Option ℚ :=
  fun n _ => if n == "cemA" then some 0 else some 1

/-- The concrete run used as the witness for the amended claim C6: the
initial average 3 is already below the target 5, so the loop exits at once
and the shares are written back unchanged. -/
theorem adjust_run_eval :
    adjust_clinker_one tblC6 5 1 actUnspec = some actUnspec := by
  have hfilC6 : actUnspec.exchanges.filter cementPred = [excCemA, excCemB] := by decide
  have hmapC6 : mapOpt (fun e => tblC6 e.name e.location) [excCemA, excCemB]
      = some [0, 1] := by decide
  have hdC6 : dotSum ([excCemA, excCemB].map (fun e => e.amount)) [(0:ℚ), 1] = 3 := by
    norm_num [dotSum, excCemA, excCemB]
  have hn : nanToNum (([excCemA, excCemB].map (fun e => e.amount)).map some)
      = [2, 3] := by decide
  have hwbC6 : writeBack actUnspec.exchanges [(2:ℚ), 3]
      = some actUnspec.exchanges := by decide
  have hloop : ∀ s : RState, rLoop 5 1 s 3 = some (s, 3) := by
    intro s
    unfold rLoop
    rw [if_neg (by norm_num)]
  unfold adjust_clinker_one
  rw [if_pos (by decide), hfilC6]
  simp only [hmapC6, hdC6, hloop, hn, hwbC6]

/-- Witness for the amended claim C6. -/
theorem adjust_clinker_conserves_c6_witness :
    adjust_clinker_one tblC6 5 1 actUnspec = some actUnspec ∧
    ((actUnspec.exchanges.filter cementPred).map (fun e => e.amount)).sum =
      ((actUnspec.exchanges.filter cementPred).map (fun e => e.amount)).sum :=
  ⟨adjust_run_eval,
   adjust_clinker_conserves_c6 tblC6 5 1 actUnspec actUnspec adjust_run_eval⟩
